import Mathlib

/-
Verification of core behaviors of the hazelcast-go-client repository.

The definitions below are shallow embeddings of the Go source:
  * client lifecycle (`Client.start`, `Client.Shutdown`, accessors, `Running`)
  * the near-cache map operation wrappers (`nearCacheMap.*`)
  * the near-cache statistics ratio (`Stats.Ratio`)
  * CP proxy name parsing (`objectNameForProxy`, `withoutDefaultGroupName`)
  * connection frame reassembly (`Connection.receiveMessage`)
Machine integers (int32 state, int64 counters) are modelled as Nat/Int;
none of the verified paths overflow.
-/

namespace HazelcastClient

/-- Lifecycle states of the client. In the Go source these are the int32
constants created=0, starting=1, ready=2, stopping=3, stopped=4. -/
inductive LState where
  | created
  | starting
  | ready
  | stopping
  | stopped
deriving DecidableEq

/-- Numeric value of each lifecycle state, as in the Go iota constants. -/
def rank : LState → Nat
  | .created => 0
  | .starting => 1
  | .ready => 2
  | .stopping => 3
  | .stopped => 4

/-- Errors observable from the client facade. `connectionFailed` stands for
the error returned by `connectionManager.Start` when no connection can be
opened within the timeout. -/
inductive LErr where
  | cannotStart
  | notReady
  | connectionFailed
deriving DecidableEq

/-- Embedding of `Client.start`. The Go code does
`CompareAndSwapInt32(&c.state, created, starting)`; on CAS failure it
returns ErrClientCannotStart without touching the state. On CAS success the
state is written to `starting`; if `connectionManager.Start` succeeds the
state is stored as `ready`, otherwise the error is returned and the state
is left at `starting`. The result is (final state, returned error, the list
of state values written in order). -/
def start (s : LState) (connOk : Bool) : LState × Option LErr × List LState :=
  if s = .created then
    if connOk then
      (.ready, none, [.starting, .ready])
    else
      (.starting, some .connectionFailed, [.starting])
  else
    (s, some .cannotStart, [])

/-- Embedding of `Client.Shutdown`. The Go code does
`CompareAndSwapInt32(&c.state, ready, stopping)`; on CAS failure it returns
ErrClientNotReady without touching the state; on success it stops the
services and stores `stopped`. -/
def Shutdown (s : LState) : LState × Option LErr × List LState :=
  if s = .ready then
    (.stopped, none, [.stopping, .stopped])
  else
    (s, some .notReady, [])

/-- A lifecycle operation invoked on the client facade. -/
inductive ClientOp where
  | opStart (connOk : Bool)
  | opShutdown
deriving DecidableEq

/-- Apply one lifecycle operation to the state. -/
def applyOp (s : LState) : ClientOp → LState × Option LErr × List LState
  | .opStart connOk => start s connOk
  | .opShutdown => Shutdown s

/-- Run a sequence of lifecycle operations from a state, collecting the
returned errors of each call and the concatenated trace of state writes. -/
def run (s : LState) : List ClientOp → LState × List (Option LErr) × List LState
  | [] => (s, [], [])
  | op :: ops =>
    let r := applyOp s op
    let rest := run r.1 ops
    (rest.1, r.2.1 :: rest.2.1, r.2.2 ++ rest.2.2)

/-- The four legal lifecycle transitions of the spec:
created→starting, starting→ready, ready→stopping, stopping→stopped. -/
def chainStep (a b : LState) : Prop :=
  (a = .created ∧ b = .starting) ∨ (a = .starting ∧ b = .ready) ∨
    (a = .ready ∧ b = .stopping) ∨ (a = .stopping ∧ b = .stopped)

instance : DecidableRel chainStep := fun a b => by
  unfold chainStep
  infer_instance

theorem chainStep_rank {a b : LState} (h : chainStep a b) : rank a < rank b := by
  rcases h with ⟨ha, hb⟩ | ⟨ha, hb⟩ | ⟨ha, hb⟩ | ⟨ha, hb⟩ <;> subst ha <;> subst hb <;> decide

theorem run_chain (ops : List ClientOp) : ∀ s : LState, List.Chain chainStep s (run s ops).2.2 := by
  induction ops with
  | nil => intro s; exact List.Chain.nil
  | cons op ops ih =>
    intro s
    cases op with
    | opStart connOk =>
      cases s with
      | created =>
        cases connOk with
        | true => exact List.Chain.cons (by decide) (List.Chain.cons (by decide) (ih _))
        | false => exact List.Chain.cons (by decide) (ih _)
      | starting => exact ih _
      | ready => exact ih _
      | stopping => exact ih _
      | stopped => exact ih _
    | opShutdown =>
      cases s with
      | ready => exact List.Chain.cons (by decide) (List.Chain.cons (by decide) (ih _))
      | created => exact ih _
      | starting => exact ih _
      | stopping => exact ih _
      | stopped => exact ih _

theorem run_starting_fixed (ops : List ClientOp) : (run .starting ops).1 = .starting := by
  induction ops with
  | nil => rfl
  | cons op ops ih =>
    cases op with
    | opStart connOk => exact ih
    | opShutdown => exact ih

theorem run_stopped_shutdowns (m : Nat) :
    run .stopped (List.replicate m .opShutdown)
      = (.stopped, List.replicate m (some .notReady), []) := by
  induction m with
  | zero => rfl
  | succ n ih => simp [List.replicate_succ, run, applyOp, Shutdown, ih]

/-- Claim C3: lifecycle operations only move the state along the chain
created → starting → ready → stopping → stopped. Every state value written
during any sequence of start/Shutdown calls follows a legal pair, the
visited states are strictly increasing in rank (so no prior state is ever
re-entered), start from a non-created state fails with the cannot-start
error leaving the state unchanged, and Shutdown from a non-ready state
fails with the not-ready error leaving the state unchanged. -/
theorem lifecycle_one_way :
    (∀ ops : List ClientOp, List.Chain chainStep .created (run .created ops).2.2)
    ∧ (∀ ops : List ClientOp,
        (LState.created :: (run .created ops).2.2).Pairwise (fun a b => rank a < rank b))
    ∧ (∀ (s : LState) (connOk : Bool), s ≠ .created →
        start s connOk = (s, some .cannotStart, []))
    ∧ (∀ s : LState, s ≠ .ready → Shutdown s = (s, some .notReady, [])) := by
  refine ⟨fun ops => run_chain ops .created, ?_, ?_, ?_⟩
  · intro ops
    haveI : IsTrans LState (fun a b => rank a < rank b) :=
      ⟨fun a b c hab hbc => lt_trans hab hbc⟩
    exact List.Chain.pairwise ((run_chain ops .created).imp fun a b h => chainStep_rank h)
  · intro s connOk h
    simp [start, h]
  · intro s h
    simp [Shutdown, h]

theorem lifecycle_one_way_check :
    List.Chain chainStep .created
      (run .created [ClientOp.opStart true, ClientOp.opShutdown]).2.2
    ∧ start .stopped true = (.stopped, some .cannotStart, [])
    ∧ Shutdown .created = (.created, some .notReady, []) :=
  ⟨lifecycle_one_way.1 _,
   lifecycle_one_way.2.2.1 .stopped true (by decide),
   lifecycle_one_way.2.2.2 .created (by decide)⟩

/-- Claim C4: Shutdown is idempotent. Starting from the ready state, in a
series of n Shutdown calls (the CAS on the state linearizes concurrent
callers into such a series) exactly the first caller observes success
(no error), every other caller observes the not-ready error, and the state
ends as the first caller set it (stopped, having written stopping and then
stopped exactly once). -/
theorem shutdown_idempotent (n : Nat) (h : 1 ≤ n) :
    run .ready (List.replicate n .opShutdown)
      = (.stopped, none :: List.replicate (n - 1) (some .notReady),
         [.stopping, .stopped]) := by
  cases n with
  | zero => exact absurd h (by decide)
  | succ m =>
    simp [List.replicate_succ, run, applyOp, Shutdown, run_stopped_shutdowns]

theorem shutdown_idempotent_check :
    run .ready (List.replicate 2 .opShutdown)
      = (.stopped, [none, some .notReady], [.stopping, .stopped]) := by
  have h := shutdown_idempotent 2 (by decide)
  simpa using h

/-- Result of a data-structure accessor: either the not-ready error or
delegation to the proxy manager. -/
inductive AccessorResult (α : Type) where
  | notReadyErr
  | delegated (a : α)
deriving DecidableEq

/-- Embedding of `Client.GetMap`: fail with ErrClientNotReady unless the
state equals ready, otherwise return `c.proxyManager.getMap(name)`
(the delegate is the parameter `pm`). -/
def GetMap {α : Type} (s : LState) (pm : String → α) (name : String) : AccessorResult α :=
  if s = .ready then .delegated (pm name) else .notReadyErr

/-- Embedding of `Client.GetReplicatedMap`. -/
def GetReplicatedMap {α : Type} (s : LState) (pm : String → α) (name : String) : AccessorResult α :=
  if s = .ready then .delegated (pm name) else .notReadyErr

/-- Embedding of `Client.GetQueue`. -/
def GetQueue {α : Type} (s : LState) (pm : String → α) (name : String) : AccessorResult α :=
  if s = .ready then .delegated (pm name) else .notReadyErr

/-- Embedding of `Client.GetTopic`. -/
def GetTopic {α : Type} (s : LState) (pm : String → α) (name : String) : AccessorResult α :=
  if s = .ready then .delegated (pm name) else .notReadyErr

/-- Embedding of `Client.GetList`. -/
def GetList {α : Type} (s : LState) (pm : String → α) (name : String) : AccessorResult α :=
  if s = .ready then .delegated (pm name) else .notReadyErr

/-- Embedding of `Client.Running`: the state equals ready. -/
def Running (s : LState) : Bool :=
  decide (s = LState.ready)

/-- Claim C5: every data-structure accessor fails with the not-ready error
whenever the lifecycle state is not ready, and delegates to the proxy
manager exactly when the state is ready; Running returns true exactly when
the state equals ready. -/
theorem accessors_require_ready :
    (∀ (α : Type) (s : LState) (pm : String → α) (name : String),
        (s ≠ .ready → GetMap s pm name = .notReadyErr)
        ∧ (s = .ready → GetMap s pm name = .delegated (pm name)))
    ∧ (∀ (α : Type) (s : LState) (pm : String → α) (name : String),
        (s ≠ .ready → GetReplicatedMap s pm name = .notReadyErr)
        ∧ (s = .ready → GetReplicatedMap s pm name = .delegated (pm name)))
    ∧ (∀ (α : Type) (s : LState) (pm : String → α) (name : String),
        (s ≠ .ready → GetQueue s pm name = .notReadyErr)
        ∧ (s = .ready → GetQueue s pm name = .delegated (pm name)))
    ∧ (∀ (α : Type) (s : LState) (pm : String → α) (name : String),
        (s ≠ .ready → GetTopic s pm name = .notReadyErr)
        ∧ (s = .ready → GetTopic s pm name = .delegated (pm name)))
    ∧ (∀ (α : Type) (s : LState) (pm : String → α) (name : String),
        (s ≠ .ready → GetList s pm name = .notReadyErr)
        ∧ (s = .ready → GetList s pm name = .delegated (pm name)))
    ∧ (∀ s : LState, Running s = true ↔ s = .ready) := by
  refine ⟨?_, ?_, ?_, ?_, ?_, ?_⟩
  · exact fun α s pm name =>
      ⟨fun h => by simp [GetMap, h], fun h => by simp [GetMap, h]⟩
  · exact fun α s pm name =>
      ⟨fun h => by simp [GetReplicatedMap, h], fun h => by simp [GetReplicatedMap, h]⟩
  · exact fun α s pm name =>
      ⟨fun h => by simp [GetQueue, h], fun h => by simp [GetQueue, h]⟩
  · exact fun α s pm name =>
      ⟨fun h => by simp [GetTopic, h], fun h => by simp [GetTopic, h]⟩
  · exact fun α s pm name =>
      ⟨fun h => by simp [GetList, h], fun h => by simp [GetList, h]⟩
  · intro s
    simp [Running]

theorem accessors_require_ready_check :
    GetMap .starting (fun _ => (0 : Nat)) "m" = .notReadyErr
    ∧ GetMap .ready (fun _ => (0 : Nat)) "m" = .delegated 0 :=
  ⟨(accessors_require_ready.1 Nat .starting (fun _ => 0) "m").1 (by decide),
   (accessors_require_ready.1 Nat .ready (fun _ => 0) "m").2 rfl⟩

/-- Claim C10: when start fails in the connection phase the state stays at
starting (the code never resets it); from then on every start call fails
with cannot-start, Shutdown fails with not-ready, every accessor fails
with not-ready, and no sequence of further lifecycle operations can ever
move the state away from starting. -/
theorem failed_start_bricks_client :
    (run .created [ClientOp.opStart false]).1 = .starting
    ∧ (run .created [ClientOp.opStart false]).2.1 = [some .connectionFailed]
    ∧ (∀ connOk : Bool, start .starting connOk = (.starting, some .cannotStart, []))
    ∧ Shutdown .starting = (.starting, some .notReady, [])
    ∧ (∀ (α : Type) (pm : String → α) (name : String),
        GetMap .starting pm name = .notReadyErr
        ∧ GetReplicatedMap .starting pm name = .notReadyErr
        ∧ GetQueue .starting pm name = .notReadyErr
        ∧ GetTopic .starting pm name = .notReadyErr
        ∧ GetList .starting pm name = .notReadyErr)
    ∧ (∀ ops : List ClientOp, (run .starting ops).1 = .starting) := by
  refine ⟨rfl, rfl, ?_, rfl, ?_, run_starting_fixed⟩
  · intro connOk
    cases connOk <;> rfl
  · intro α pm name
    exact ⟨rfl, rfl, rfl, rfl, rfl⟩

namespace nearCacheMap

/-- Near-cache contents: an association of cache keys to cached values. -/
abbrev Store (K V : Type) := List (K × V)

/-- Look a key up in the near cache. -/
def lookup {K V : Type} [DecidableEq K] (nc : Store K V) (k : K) : Option V :=
  match nc with
  | [] => none
  | (k2, v) :: rest => if k2 = k then some v else lookup rest k

/-- Embedding of `NearCache.Invalidate`: remove the record of the key. -/
def Invalidate {K V : Type} [DecidableEq K] (nc : Store K V) (k : K) : Store K V :=
  nc.filter (fun p => decide (p.1 ≠ k))

theorem lookup_Invalidate {K V : Type} [DecidableEq K] (nc : Store K V) (k : K) :
    lookup (Invalidate nc k) k = none := by
  induction nc with
  | nil => rfl
  | cons p rest ih =>
    rcases p with ⟨k2, v⟩
    by_cases h : k2 = k
    · simpa [Invalidate, List.filter_cons, h] using ih
    · simpa [Invalidate, List.filter_cons, h, lookup] using ih

/-- Embedding of `nearCacheMap.Put`: transform the key with
`ncm.toNearCacheKey` (returning the error and leaving the cache untouched
when the transform fails), then call the remote put; the deferred
`ncm.nc.Invalidate(key)` removes the transformed key after the remote call
returns, whether it succeeded or failed. `remote` stands for
`m.putWithTTLFromRemote`. -/
def Put {K V R E : Type} [DecidableEq K] (toNearCacheKey : K → Except E K)
    (remote : K → V → Int → Except E R) (nc : Store K V) (k : K) (v : V)
    (ttl : Int) : Except E R × Store K V :=
  match toNearCacheKey k with
  | .error e => (.error e, nc)
  | .ok k2 => (remote k2 v ttl, Invalidate nc k2)

/-- Embedding of `nearCacheMap.PutWithMaxIdle`; `remote` stands for
`m.putWithMaxIdleFromRemote`. -/
def PutWithMaxIdle {K V R E : Type} [DecidableEq K] (toNearCacheKey : K → Except E K)
    (remote : K → V → Int → Int → Except E R) (nc : Store K V) (k : K) (v : V)
    (ttl maxIdle : Int) : Except E R × Store K V :=
  match toNearCacheKey k with
  | .error e => (.error e, nc)
  | .ok k2 => (remote k2 v ttl maxIdle, Invalidate nc k2)

/-- Embedding of `nearCacheMap.Set`; `remote` stands for `m.setFromRemote`. -/
def Set {K V E : Type} [DecidableEq K] (toNearCacheKey : K → Except E K)
    (remote : K → V → Int → Except E Unit) (nc : Store K V) (k : K) (v : V)
    (ttl : Int) : Except E Unit × Store K V :=
  match toNearCacheKey k with
  | .error e => (.error e, nc)
  | .ok k2 => (remote k2 v ttl, Invalidate nc k2)

/-- Embedding of `nearCacheMap.SetWithTTLAndMaxIdle`; `remote` stands for
`m.setWithTTLAndMaxIdleFromRemote`. -/
def SetWithTTLAndMaxIdle {K V E : Type} [DecidableEq K] (toNearCacheKey : K → Except E K)
    (remote : K → V → Int → Int → Except E Unit) (nc : Store K V) (k : K) (v : V)
    (ttl maxIdle : Int) : Except E Unit × Store K V :=
  match toNearCacheKey k with
  | .error e => (.error e, nc)
  | .ok k2 => (remote k2 v ttl maxIdle, Invalidate nc k2)

/-- Embedding of `nearCacheMap.Remove`; `remote` stands for
`m.removeFromRemote`. -/
def Remove {K V R E : Type} [DecidableEq K] (toNearCacheKey : K → Except E K)
    (remote : K → Except E R) (nc : Store K V) (k : K) : Except E R × Store K V :=
  match toNearCacheKey k with
  | .error e => (.error e, nc)
  | .ok k2 => (remote k2, Invalidate nc k2)

/-- Embedding of `nearCacheMap.RemoveIfSame`; `remote` stands for
`m.removeIfSameFromRemote`. -/
def RemoveIfSame {K V E : Type} [DecidableEq K] (toNearCacheKey : K → Except E K)
    (remote : K → V → Except E Bool) (nc : Store K V) (k : K) (v : V) :
    Except E Bool × Store K V :=
  match toNearCacheKey k with
  | .error e => (.error e, nc)
  | .ok k2 => (remote k2 v, Invalidate nc k2)

/-- Embedding of `nearCacheMap.TryPut`; `remote` stands for
`m.tryPutFromRemote`. -/
def TryPut {K V E : Type} [DecidableEq K] (toNearCacheKey : K → Except E K)
    (remote : K → V → Int → Except E Bool) (nc : Store K V) (k : K) (v : V)
    (timeout : Int) : Except E Bool × Store K V :=
  match toNearCacheKey k with
  | .error e => (.error e, nc)
  | .ok k2 => (remote k2 v timeout, Invalidate nc k2)

/-- Embedding of `nearCacheMap.TryRemove`; `remote` stands for
`m.tryRemoveFromRemote`. -/
def TryRemove {K V R E : Type} [DecidableEq K] (toNearCacheKey : K → Except E K)
    (remote : K → Int → Except E R) (nc : Store K V) (k : K) (timeout : Int) :
    Except E R × Store K V :=
  match toNearCacheKey k with
  | .error e => (.error e, nc)
  | .ok k2 => (remote k2 timeout, Invalidate nc k2)

/-- Embedding of `nearCacheMap.Delete`; `remote` stands for
`m.deleteFromRemote`. -/
def Delete {K V E : Type} [DecidableEq K] (toNearCacheKey : K → Except E K)
    (remote : K → Except E Unit) (nc : Store K V) (k : K) :
    Except E Unit × Store K V :=
  match toNearCacheKey k with
  | .error e => (.error e, nc)
  | .ok k2 => (remote k2, Invalidate nc k2)

/-- Claim C2: every mutating near-cache map operation (Put, PutWithMaxIdle,
Set, SetWithTTLAndMaxIdle, Remove, RemoveIfSame, TryPut, TryRemove, Delete)
invalidates the (transformed) key in the near cache after the remote call
returns, for every remote outcome, success or error; Delete invalidates
unconditionally in the same way. -/
theorem mutating_ops_invalidate {K V R E : Type} [DecidableEq K]
    (toNearCacheKey : K → Except E K) (k k2 : K)
    (hk : toNearCacheKey k = .ok k2) (nc : Store K V) (v : V)
    (ttl maxIdle timeout : Int) :
    (∀ remote : K → V → Int → Except E R,
        lookup (Put toNearCacheKey remote nc k v ttl).2 k2 = none)
    ∧ (∀ remote : K → V → Int → Int → Except E R,
        lookup (PutWithMaxIdle toNearCacheKey remote nc k v ttl maxIdle).2 k2 = none)
    ∧ (∀ remote : K → V → Int → Except E Unit,
        lookup (Set toNearCacheKey remote nc k v ttl).2 k2 = none)
    ∧ (∀ remote : K → V → Int → Int → Except E Unit,
        lookup (SetWithTTLAndMaxIdle toNearCacheKey remote nc k v ttl maxIdle).2 k2 = none)
    ∧ (∀ remote : K → Except E R,
        lookup (Remove toNearCacheKey remote nc k).2 k2 = none)
    ∧ (∀ remote : K → V → Except E Bool,
        lookup (RemoveIfSame toNearCacheKey remote nc k v).2 k2 = none)
    ∧ (∀ remote : K → V → Int → Except E Bool,
        lookup (TryPut toNearCacheKey remote nc k v timeout).2 k2 = none)
    ∧ (∀ remote : K → Int → Except E R,
        lookup (TryRemove toNearCacheKey remote nc k timeout).2 k2 = none)
    ∧ (∀ remote : K → Except E Unit,
        lookup (Delete toNearCacheKey remote nc k).2 k2 = none) := by
  refine ⟨?_, ?_, ?_, ?_, ?_, ?_, ?_, ?_, ?_⟩
  · intro remote; simp [Put, hk, lookup_Invalidate]
  · intro remote; simp [PutWithMaxIdle, hk, lookup_Invalidate]
  · intro remote; simp [Set, hk, lookup_Invalidate]
  · intro remote; simp [SetWithTTLAndMaxIdle, hk, lookup_Invalidate]
  · intro remote; simp [Remove, hk, lookup_Invalidate]
  · intro remote; simp [RemoveIfSame, hk, lookup_Invalidate]
  · intro remote; simp [TryPut, hk, lookup_Invalidate]
  · intro remote; simp [TryRemove, hk, lookup_Invalidate]
  · intro remote; simp [Delete, hk, lookup_Invalidate]

theorem mutating_ops_invalidate_check :
    lookup (Put (fun n => (Except.ok n : Except Nat Nat))
      (fun _ _ _ => (Except.ok 0 : Except Nat Nat)) [(5, 7)] 5 1 0).2 5 = none :=
  (mutating_ops_invalidate (fun n => Except.ok n) 5 5 rfl [(5, 7)] 1 0 0 0).1
    (fun _ _ _ => Except.ok 0)

/-- The state which the spec (section 4.7) mandates the invalidation
handler to maintain: near-cache records keyed by (partition uuid, key
bytes) and the per-partition last-seen invalidation sequence. -/
structure InvalidationState where
  records : List (Nat × List Nat)
  lastSeq : List (Nat × Int)
deriving DecidableEq

/-- Embedding of `nearCacheMap.handleInvalidationMsg`: the Go body only
emits a trace log of (key, source, partition, seq) and returns; it reads
and writes no near-cache state at all. -/
def handleInvalidationMsg (st : InvalidationState) (key : List Nat)
    (source : Nat) (partition : Nat) (seq : Int) : InvalidationState :=
  st

/-- Claim C1 (code bug): delivering an invalidation event whose sequence
jumps from last-seen 1 to 5 (a gap) on partition 7 leaves the near-cache
state untouched; the handler neither advances the per-partition sequence
store nor flushes the partition records, contrary to the mandated
per-partition sequence discipline. -/
theorem handleInvalidationMsg_ignores_gap :
    handleInvalidationMsg ⟨[(7, [9, 9])], [(7, 1)]⟩ [9, 9] 3 7 5
      = ⟨[(7, [9, 9])], [(7, 1)]⟩
    ∧ (handleInvalidationMsg ⟨[(7, [9, 9])], [(7, 1)]⟩ [9, 9] 3 7 5).records ≠ []
    ∧ (handleInvalidationMsg ⟨[(7, [9, 9])], [(7, 1)]⟩ [9, 9] 3 7 5).lastSeq ≠ [(7, 5)] :=
  ⟨rfl, by decide, by decide⟩

end nearCacheMap

/-- Near-cache statistics (`nearcache.Stats`); the int64 counters are
modelled as Int; the time, duration and string fields are omitted as no
verified property reads them. -/
structure Stats where
  OwnedEntryCount : Int
  OwnedEntryMemoryCost : Int
  Hits : Int
  Misses : Int
  Evictions : Int
  Expirations : Int
  Invalidations : Int
  InvalidationRequests : Int
  PersistenceCount : Int
  LastPersistenceWrittenBytes : Int
  LastPersistenceKeyCount : Int
deriving DecidableEq

/-- Result of the float64 hit/miss ratio: NaN, positive infinity, or a
finite value; the finite case carries the exact rational which the Go
float64 arithmetic computes up to rounding. -/
inductive RatioValue where
  | nan
  | posInf
  | finite (q : ℚ)
deriving DecidableEq

/-- Embedding of `Stats.Ratio`: NaN when both counters are zero, positive
infinity when misses is zero and hits is not, otherwise
(hits / misses) * 100. -/
def Stats.Ratio (s : Stats) : RatioValue :=
  if s.Misses = 0 then
    if s.Hits = 0 then .nan else .posInf
  else .finite ((s.Hits : ℚ) / (s.Misses : ℚ) * 100)

/-- Claim C9: Ratio equals (hits / misses) x 100 when misses > 0, positive
infinity when misses = 0 and hits > 0, and NaN when both hits and misses
are zero. -/
theorem ratio_cases (s : Stats) :
    (0 < s.Misses → s.Ratio = .finite ((s.Hits : ℚ) / (s.Misses : ℚ) * 100))
    ∧ (s.Misses = 0 → 0 < s.Hits → s.Ratio = .posInf)
    ∧ (s.Misses = 0 → s.Hits = 0 → s.Ratio = .nan) := by
  refine ⟨?_, ?_, ?_⟩
  · intro h
    have h0 : s.Misses ≠ 0 := by omega
    simp [Stats.Ratio, h0]
  · intro h0 h1
    have h2 : s.Hits ≠ 0 := by omega
    simp [Stats.Ratio, h0, h2]
  · intro h0 h1
    simp [Stats.Ratio, h0, h1]

theorem ratio_cases_check :
    (Stats.mk 0 0 3 2 0 0 0 0 0 0 0).Ratio = .finite 150 := by
  have h := (ratio_cases (Stats.mk 0 0 3 2 0 0 0 0 0 0 0)).1 (by decide)
  rw [h]
  norm_num

namespace cp

/-- White-space characters removed by Go strings.TrimSpace (ASCII class;
no caller in the repository uses the non-ASCII Unicode space characters). -/
def isSpaceChar (c : Char) : Bool :=
  c == ' ' || c == '\t' || c == '\n' || c == '\x0b' || c == '\x0c' || c == '\r'

/-- Embedding of Go strings.TrimSpace over the character list. -/
def trimSpace (cs : List Char) : List Char :=
  ((cs.dropWhile isSpaceChar).reverse.dropWhile isSpaceChar).reverse

/-- Go strings.Index(name, at-sign) followed by the two slicings
name[:idx] and name[idx+1:]: none when the at sign is absent, otherwise
the parts before and after its first occurrence. -/
def splitFirstAt : List Char → Option (List Char × List Char)
  | [] => none
  | c :: cs =>
    if c = '@' then some ([], cs)
    else
      match splitFirstAt cs with
      | none => none
      | some (pre, post) => some (c :: pre, post)

/-- ASCII lower-casing of one character (Go strings.ToLower; the group
names compared against are ASCII). -/
def toLowerChar (c : Char) : Char :=
  if 'A' ≤ c ∧ c ≤ 'Z' then Char.ofNat (c.toNat + 32) else c

/-- Lower-case a character list. -/
def toLowerStr (cs : List Char) : List Char :=
  cs.map toLowerChar

/-- Errors of the CP proxy name parser; every one is an
IllegalArgumentError, the invalid-argument kind. -/
inductive CPError where
  | illegalArgument (msg : String)
deriving DecidableEq

/-- Embedding of `objectNameForProxy` (internal/cp/proxy_factory.go):
return a bare name as is; otherwise reject an empty trimmed group part,
then an empty trimmed object part, and return the trimmed object part. -/
def objectNameForProxy (name : List Char) : Except CPError (List Char) :=
  match splitFirstAt name with
  | none => .ok name
  | some (pre, post) =>
    if trimSpace post = [] then
      .error (.illegalArgument "custom CP group name cannot be empty string")
    else if trimSpace pre = [] then
      .error (.illegalArgument "object name cannot be empty string")
    else .ok (trimSpace pre)

/-- Embedding of `withoutDefaultGroupName` (internal/cp/proxy_factory.go):
trim the whole name; return a bare name as is; reject a second at sign,
then the metadata group case-insensitively; strip an at-default suffix;
otherwise return the trimmed name. -/
def withoutDefaultGroupName (proxyName : List Char) : Except CPError (List Char) :=
  match splitFirstAt (trimSpace proxyName) with
  | none => .ok (trimSpace proxyName)
  | some (pre, post) =>
    if post.contains '@' then
      .error (.illegalArgument "custom group name must be specified at most once")
    else if toLowerStr (trimSpace post) = "metadata".data then
      .error (.illegalArgument "cp data structures cannot run on the METADATA CP group!")
    else if toLowerStr (trimSpace post) = "default".data then
      .ok pre
    else .ok (trimSpace proxyName)

/-- Parse stage of `proxyFactory.getOrCreateProxy`: apply
`withoutDefaultGroupName` and `objectNameForProxy` to the requested name,
failing when either fails. -/
def cpParseProxyName (name : List Char) : Except CPError (List Char × List Char) :=
  match withoutDefaultGroupName name with
  | .error e => .error e
  | .ok pxy =>
    match objectNameForProxy name with
    | .error e => .error e
    | .ok obj => .ok (pxy, obj)

/-- True when the parse result is an IllegalArgumentError. -/
def cpIsError {α : Type} : Except CPError α → Bool
  | .error _ => true
  | .ok _ => false

instance {E A : Type} [DecidableEq E] [DecidableEq A] : DecidableEq (Except E A) := fun x y =>
  match x, y with
  | .error a, .error b =>
      if h : a = b then .isTrue (by rw [h])
      else .isFalse (fun hh => h (by injection hh))
  | .error _, .ok _ => .isFalse (fun hh => Except.noConfusion hh)
  | .ok _, .error _ => .isFalse (fun hh => Except.noConfusion hh)
  | .ok a, .ok b =>
      if h : a = b then .isTrue (by rw [h])
      else .isFalse (fun hh => h (by injection hh))

theorem splitFirstAt_eq_none {cs : List Char} (h : '@' ∉ cs) :
    splitFirstAt cs = none := by
  induction cs with
  | nil => rfl
  | cons c cs ih =>
    have hc : ¬ c = '@' := fun hh => h (by rw [← hh]; exact List.mem_cons_self c cs)
    have hcs : '@' ∉ cs := fun hh => h (List.mem_cons_of_mem c hh)
    simp [splitFirstAt, hc, ih hcs]

/-- Claim C6, amended: for an input containing no at sign the object name
is the input itself, unchanged (objectNameForProxy does not trim a bare
name); the object name of counter at custom is counter; and
withoutDefaultGroupName maps counter at default to the bare counter. -/
theorem object_name_parsing :
    (∀ name : List Char, '@' ∉ name → objectNameForProxy name = .ok name)
    ∧ objectNameForProxy "counter@custom".data = .ok "counter".data
    ∧ withoutDefaultGroupName "counter@default".data = .ok "counter".data := by
  refine ⟨?_, by decide, by decide⟩
  intro name h
  simp [objectNameForProxy, splitFirstAt_eq_none h]

theorem object_name_parsing_check :
    objectNameForProxy "counter".data = .ok "counter".data :=
  object_name_parsing.1 "counter".data (by decide)

/-- Claim C6 counterexample: on an input with no at sign the object name
is not trimmed: objectNameForProxy of the input with surrounding spaces
returns the input unchanged rather than the trimmed form. -/
theorem object_name_trim_counterexample :
    objectNameForProxy " counter ".data = .ok " counter ".data
    ∧ ¬ objectNameForProxy " counter ".data = .ok (trimSpace " counter ".data) :=
  ⟨by decide, by decide⟩

/-- Claim C7: CP proxy name parsing fails with the invalid-argument error
when the group part of the trimmed name contains another at sign (more
than one at sign in the name), when the group part equals metadata
case-insensitively, or when the object part or group part is empty after
trimming; in particular counter at metadata and counter at a at b are both
rejected. -/
theorem group_name_validation :
    (∀ (name pre post : List Char),
        splitFirstAt (trimSpace name) = some (pre, post) →
        ('@' ∈ post ∨ toLowerStr (trimSpace post) = "metadata".data) →
        cpIsError (cpParseProxyName name) = true)
    ∧ (∀ (name pre post : List Char),
        splitFirstAt name = some (pre, post) →
        (trimSpace pre = [] ∨ trimSpace post = []) →
        cpIsError (cpParseProxyName name) = true)
    ∧ cpIsError (cpParseProxyName "counter@metadata".data) = true
    ∧ cpIsError (cpParseProxyName "counter@a@b".data) = true := by
  refine ⟨?_, ?_, by decide, by decide⟩
  · intro name pre post hsplit hcond
    have hw : ∃ e, withoutDefaultGroupName name = .error e := by
      unfold withoutDefaultGroupName
      rw [hsplit]
      dsimp only
      by_cases hc : post.contains '@' = true
      · exact ⟨_, by rw [if_pos hc]⟩
      · rcases hcond with h | h
        · exact absurd (List.elem_iff.mpr h) hc
        · exact ⟨_, by rw [if_neg hc, if_pos h]⟩
    rcases hw with ⟨e, he⟩
    simp [cpParseProxyName, he, cpIsError]
  · intro name pre post hsplit hcond
    have hobj : ∃ e, objectNameForProxy name = .error e := by
      unfold objectNameForProxy
      rw [hsplit]
      dsimp only
      rcases hcond with h | h
      · by_cases hg : trimSpace post = []
        · exact ⟨_, by rw [if_pos hg]⟩
        · exact ⟨_, by rw [if_neg hg, if_pos h]⟩
      · exact ⟨_, by rw [if_pos h]⟩
    rcases hobj with ⟨e, he⟩
    cases hw : withoutDefaultGroupName name with
    | error e2 => simp [cpParseProxyName, hw, cpIsError]
    | ok v => simp [cpParseProxyName, hw, he, cpIsError]

theorem group_name_validation_check :
    cpIsError (cpParseProxyName "a@metadata".data) = true :=
  group_name_validation.1 "a@metadata".data "a".data "metadata".data (by decide)
    (Or.inr (by decide))

end cp

namespace Connection

/-- Little-endian 32-bit frame length read from the first four buffered
bytes, binary.LittleEndian.Uint32(readBuffer[0:4]); list entries are byte
values. -/
def frameLength : List Nat → Nat
  | b0 :: b1 :: b2 :: b3 :: _ => b0 + b1 * 256 + b2 * 65536 + b3 * 16777216
  | _ => 0

/-- The loop of `Connection.receiveMessage`, fuel-indexed: while strictly
more than four bytes (common.Int32SizeInBytes) are buffered, read the
announced frame length; stop when fewer bytes than announced are buffered;
otherwise hand the prefix of that length to the correlation layer
(`clientMessageBuilder.onMessage`) and continue on the remaining bytes.
The fuel only bounds the iteration count of the embedding;
`receiveMessage` supplies enough for any run of frames of nonzero
announced length (on an announced length of zero the Go loop itself does
not terminate). -/
def receiveLoop : Nat → List Nat → List (List Nat) × List Nat
  | 0, buf => ([], buf)
  | fuel + 1, buf =>
    if 4 < buf.length then
      let len := frameLength buf
      if buf.length < len then ([], buf)
      else
        let r := receiveLoop fuel (buf.drop len)
        (buf.take len :: r.1, r.2)
    else ([], buf)

/-- Embedding of `Connection.receiveMessage` on the current read buffer:
the frames delivered in order and the retained buffer. -/
def receiveMessage (buf : List Nat) : List (List Nat) × List Nat :=
  receiveLoop (buf.length + 1) buf

/-- Claim C8 counterexample: with exactly four bytes buffered announcing a
frame length of four, the claim as stated would have the reader deliver
that frame and empty the buffer, but the loop of the code requires
strictly more than four buffered bytes, so it delivers nothing and
retains the buffer. -/
theorem receive_exact_four_counterexample :
    receiveMessage [4, 0, 0, 0] = ([], [4, 0, 0, 0])
    ∧ receiveMessage [4, 0, 0, 0] ≠ ([[4, 0, 0, 0]], []) :=
  ⟨rfl, by decide⟩

/-- Claim C8, amended: the reader acts only when strictly more than four
bytes are buffered: a buffer of at most four bytes is retained unchanged;
with more than four bytes buffered but fewer than the announced
little-endian frame length, the buffer is retained unchanged; and with the
announced length available, exactly that prefix is handed to the
correlation layer, removed from the buffer, and the loop continues on the
remaining bytes. -/
theorem receive_frame_reassembly :
    (∀ buf : List Nat, buf.length ≤ 4 → receiveMessage buf = ([], buf))
    ∧ (∀ buf : List Nat, 4 < buf.length → buf.length < frameLength buf →
        receiveMessage buf = ([], buf))
    ∧ (∀ buf : List Nat, 4 < buf.length → frameLength buf ≤ buf.length →
        receiveMessage buf
          = (buf.take (frameLength buf)
              :: (receiveLoop buf.length (buf.drop (frameLength buf))).1,
             (receiveLoop buf.length (buf.drop (frameLength buf))).2)) := by
  refine ⟨?_, ?_, ?_⟩
  · intro buf h
    have h4 : ¬ 4 < buf.length := by omega
    simp [receiveMessage, receiveLoop, h4]
  · intro buf h4 hlen
    simp [receiveMessage, receiveLoop, h4, hlen]
  · intro buf h4 hlen
    have h2 : ¬ buf.length < frameLength buf := by omega
    simp [receiveMessage, receiveLoop, h4, h2]

theorem receive_frame_reassembly_check :
    receiveMessage [5, 0, 0, 0, 9, 1, 0, 0] = ([[5, 0, 0, 0, 9]], [1, 0, 0]) := by
  have h := receive_frame_reassembly.2.2 [5, 0, 0, 0, 9, 1, 0, 0] (by decide) (by decide)
  rw [h]
  decide

end Connection

end HazelcastClient
